import Mathlib

/-!
Verification of the local-secure-rag core against its specification.

The development shallowly embeds the three core components of the
repository — the tenant/role-aware semantic cache (`semantic_cache.py`),
the hybrid retriever with reciprocal rank fusion (`hybrid_retriever.py`,
`prefilter.py`), and the access reconciler plus pipeline glue
(`app.py`) — and proves or refutes the frozen claims about them.

Modelling conventions:
* Python floats are idealised as real numbers (`ℝ`) for the cache's
  cosine-similarity arithmetic, and as rationals (`ℚ`) for the purely
  ordinal retrieval scores.
* Python strings are Lean `String`s; `str.lower()` is modelled by the
  ASCII `Char.toLower`, `str.strip()` by trimming whitespace from both
  ends.
* Python's randomised `hash()` is an uninterpreted parameter
  `h : String → Int`.
* The Redis store is an association list from key strings to entries;
  `hset` is an upsert, `keys(pattern)` is glob matching, `delete`
  removes the matched keys.  TTL expiry and timestamps are external
  time-dependent behaviour and are not part of any claim proved here.
-/

namespace RagCore

/-! ## Python string helpers (`tenant.lower().strip()` in `semantic_cache._key`) -/

/-- `str.lower()` restricted to ASCII case mapping. -/
def pyLower (s : String) : String :=
  ⟨s.data.map Char.toLower⟩

/-- `str.strip()`: drop leading and trailing whitespace. -/
def pyStrip (s : String) : String :=
  ⟨((s.data.dropWhile Char.isWhitespace).reverse.dropWhile Char.isWhitespace).reverse⟩

/-- `tenant.lower().strip()` — the normalisation applied by `SemanticCache._key`. -/
def pyNorm (s : String) : String :=
  pyStrip (pyLower s)

/-! ## Semantic cache data model (`semantic_cache.py`) -/

/-- An embedding vector (numpy float32 array idealised over `ℝ`). -/
abbrev Vec := List ℝ

/-- `np.dot` on equal-length vectors. -/
def dotV : Vec → Vec → ℝ
  | a :: as, b :: bs => a * b + dotV as bs
  | _, _ => 0

/-- `np.linalg.norm`. -/
noncomputable def normV (a : Vec) : ℝ :=
  Real.sqrt (dotV a a)

/-- `SemanticCache._cosine_similarity` (the `None` guards of the source
are subsumed by total `Vec` arguments). -/
noncomputable def cosine_similarity (a b : Vec) : ℝ :=
  if normV a = 0 ∨ normV b = 0 then 0
  else dotV a b / (normV a * normV b)

/-- The hash-field value stored by `SemanticCache.set`
(`time.time()` is omitted: no claim concerns the timestamp field). -/
structure Entry where
  query : String
  embedding : Vec
  answer : String
  results : String
  sources : String

/-- The `data` dict passed to `SemanticCache.set` (after `str(...)`). -/
structure CacheData where
  answer : String
  results : String
  sources : String

/-- The dict returned by a `SemanticCache.get` hit. -/
structure Hit where
  answer : String
  results : String
  sources : Option String
  cache_hit : Bool
  similarity : ℝ

/-- The Redis store: an association list of keys to hash entries
(keys are unique because writes are upserts). -/
abbrev Store := List (String × Entry)

/-- `redis.hgetall` (projected onto the entry). -/
def redisFind (s : Store) (k : String) : Option Entry :=
  (s.find? (fun p => p.1 == k)).map (·.2)

/-- `redis.hset` with a full field mapping: overwrite in place, else append. -/
def redisSet (s : Store) (k : String) (e : Entry) : Store :=
  if s.any (fun p => p.1 == k) then
    s.map (fun p => if p.1 == k then (k, e) else p)
  else
    s ++ [(k, e)]

/-- `SemanticCache._key`: `f"cache:query:{tenant}:{role}:{qhash}"` with
`tenant`/`role` lowercased and stripped and
`qhash = abs(hash(query)) % 10**12`. -/
def cache_key (h : String → Int) (query tenant role : String) : String :=
  "cache:query:" ++ pyNorm tenant ++ ":" ++ pyNorm role ++ ":"
    ++ toString ((h query).natAbs % 10 ^ 12)

/-- `SemanticCache.get`. -/
noncomputable def cache_get (h : String → Int) (threshold : ℝ) (s : Store)
    (query : String) (query_embedding : Vec) (tenant role : String) : Option Hit :=
  match redisFind s (cache_key h query tenant role) with
  | none => none
  | some e =>
    let sim := cosine_similarity query_embedding e.embedding
    if sim < threshold then none
    else some ⟨e.answer, e.results, some e.sources, true, sim⟩

/-- `SemanticCache.set` (ttl refresh handled by the store's expiry, not modelled). -/
def cache_set (h : String → Int) (s : Store) (query : String)
    (query_embedding : Vec) (data : CacheData) (tenant role : String) : Store :=
  redisSet s (cache_key h query tenant role)
    ⟨query, query_embedding, data.answer, data.results, data.sources⟩

/-! ## Redis glob matching and `SemanticCache.clear` -/

/-- Redis `KEYS` glob matching restricted to the `*` wildcard
(the only wildcard occurring in `clear`'s patterns). -/
def globMatch : List Char → List Char → Bool
  | [], ks => ks.isEmpty
  | p :: ps, ks =>
    if p = '*' then
      match ks with
      | [] => globMatch ps []
      | _ :: ks' => globMatch ps ks || globMatch (p :: ps) ks'
    else
      match ks with
      | [] => false
      | k :: ks' => p == k && globMatch ps ks'
  termination_by ps ks => (ps.length, ks.length)

/-- Literal character-list matching from the front (used to characterise
glob patterns whose only `*` is trailing). -/
def listStarts : List Char → List Char → Bool
  | [], _ => true
  | _ :: _, [] => false
  | a :: as, b :: bs => a == b && listStarts as bs

/-- `redis.keys(pattern)`. -/
def redisKeys (s : Store) (pattern : String) : List String :=
  (s.map (·.1)).filter (fun k => globMatch pattern.data k.data)

/-- Python truthiness of the optional `tenant` / `role` arguments of `clear`. -/
def optTruthy : Option String → Bool
  | none => false
  | some s => !s.isEmpty

/-- `SemanticCache.clear`: build the glob pattern from the *raw* tenant and
role arguments, delete every matching key, return the deletion count and
the remaining store. -/
def cache_clear (s : Store) (tenant role : Option String) : Nat × Store :=
  let pattern :=
    if optTruthy tenant && optTruthy role then
      "cache:query:" ++ tenant.getD "" ++ ":" ++ role.getD "" ++ ":*"
    else if optTruthy tenant then
      "cache:query:" ++ tenant.getD "" ++ ":*"
    else if optTruthy role then
      "cache:query:*:" ++ role.getD "" ++ ":*"
    else
      "cache:query:*"
  let ks := redisKeys s pattern
  (ks.length, s.filter (fun p => !(globMatch pattern.data p.1.data)))

/-! ## Hybrid retriever data model (`hybrid_retriever.py`, `prefilter.py`)

The dense search (Qdrant) and the BM25 scorer are external collaborators:
`retrieve` is embedded as a function of their result lists.  Retrieval
scores are purely ordinal, so they are modelled over `ℚ`. -/

/-- A Qdrant point payload: a string-keyed dict whose fields may be absent. -/
structure Payload where
  text : Option String
  source : Option String
  tenant : Option String
  sensitivity : Option String
deriving DecidableEq

/-- `FieldCondition(key=..., match=MatchValue(value=...))`. -/
structure FieldCondition where
  key : String
  value : String
deriving DecidableEq

/-- `build_prefilter` (`prefilter.py`): tenant must match; for role
`employee` the sensitivity must additionally be `public`. -/
def build_prefilter (tenant role : String) : List FieldCondition :=
  [⟨"tenant", tenant⟩] ++
    (if role = "employee" then [⟨"sensitivity", "public"⟩] else [])

/-- Field access on a payload dict. -/
def payloadField (p : Payload) (k : String) : Option String :=
  if k = "text" then p.text
  else if k = "source" then p.source
  else if k = "tenant" then p.tenant
  else if k = "sensitivity" then p.sensitivity
  else none

/-- Qdrant `Filter(must=...)` semantics: every `MatchValue` condition holds. -/
def satisfiesFilter (must : List FieldCondition) (p : Payload) : Bool :=
  must.all (fun c => payloadField p c.key == some c.value)

/-- One dense-search result: `(doc_id, score, payload)`. -/
abbrev DenseHit := String × ℚ × Payload

/-- `RRF_K = 60`. -/
def RRF_K : ℚ := 60

/-- One step of `ranks[doc_id] = ranks.get(doc_id, 0.0) + x` on an
insertion-ordered dict: update in place, else append. -/
def dictAdd (d : List (String × ℚ)) (key : String) (x : ℚ) : List (String × ℚ) :=
  if d.any (fun p => p.1 == key) then
    d.map (fun p => if p.1 == key then (p.1, p.2 + x) else p)
  else
    d ++ [(key, x)]

/-- One `for rank, doc_id in enumerate(ids, r)` pass of `_rrf_fuse`,
adding `1/(RRF_K + rank)` per occurrence. -/
def rrfPass : List (String × ℚ) → List String → ℕ → List (String × ℚ)
  | d, [], _ => d
  | d, id :: rest, r => rrfPass (dictAdd d id (1 / (RRF_K + r))) rest (r + 1)

/-- Stable insertion of one scored id into a descending-sorted list:
skipped past every strictly greater score and placed before the first
score ≤ its own.  Under the right-to-left `foldr` below, every element
already in the sorted tail comes *later* in insertion order, so placing
the new element before equal scores keeps ties in insertion order. -/
def insertDesc (x : String × ℚ) : List (String × ℚ) → List (String × ℚ)
  | [] => [x]
  | y :: ys => if y.2 ≤ x.2 then x :: y :: ys else y :: insertDesc x ys

/-- `sorted(items, key=lambda x: x[1], reverse=True)`: a stable sort by
descending score (any stable sort computes the same list as Python's;
see `sortDesc_pairwise_ge` and `sortDesc_tie_keeps_insertion_order`
below for the descending-order and tie-stability checks). -/
def sortDesc (l : List (String × ℚ)) : List (String × ℚ) :=
  l.foldr insertDesc []

/-- `HybridRetriever._rrf_fuse`: accumulate reciprocal-rank scores over
the dense pass then the sparse pass, sort descending, project the ids. -/
def rrf_fuse (dense : List DenseHit) (sparse : List (String × ℚ)) : List String :=
  (sortDesc (rrfPass (rrfPass [] (dense.map (·.1)) 1) (sparse.map (·.1)) 1)).map (·.1)

/-- A retrieved candidate: the payload dict plus the attached `"id"` field. -/
structure Item where
  id : String
  payload : Payload
deriving DecidableEq

/-- The minimal stub `{"source": did, "text": ""}` used when no payload
was resolved for a fused id. -/
def stubPayload (did : String) : Payload :=
  ⟨some "", some did, none, none⟩

/-- `payload_by_id` lookup: a Python dict comprehension keeps the *last*
binding of a duplicated key. -/
def payloadLookup (dense : List DenseHit) (did : String) : Option Payload :=
  (dense.reverse.find? (fun hh => hh.1 == did)).map (fun hh => hh.2.2)

/-- `HybridRetriever.retrieve`, as a function of the dense and sparse
search results.  The source's `missing_ids` loop scrolls the collection
but discards the fetched points (its own comment: "we skip filling if
not found via dense"), so it does not affect the result and has no
counterpart here. -/
def retrieve (dense : List DenseHit) (sparse : List (String × ℚ)) (top_k : ℕ) : List Item :=
  let fused_ids :=
    if sparse.isEmpty then dense.map (·.1)
    else if dense.isEmpty then sparse.map (·.1)
    else rrf_fuse dense sparse
  let out := fused_ids.map (fun did =>
    match payloadLookup dense did with
    | some p => Item.mk did p
    | none => Item.mk did (stubPayload did))
  out.take top_k

/-! ## Claim-side fusion (C6): definitions written from the spec's words,
to be compared with `rrf_fuse`. -/

/-- 1-based rank of the first occurrence of `id` in a modality's list. -/
def rankIn : List String → String → Option ℕ
  | [], _ => none
  | x :: xs, id => if x = id then some 1 else (rankIn xs id).map (· + 1)

/-- Spec wording: "score = Σ over modalities containing it of 1/(K + rank),
rank 1-based within that modality's truncated list, K=60 fixed; absent
modality contributes 0". -/
def specScore (denseIds sparseIds : List String) (id : String) : ℚ :=
  (match rankIn denseIds id with
   | some r => 1 / (60 + (r : ℚ))
   | none => 0) +
  (match rankIn sparseIds id with
   | some r => 1 / (60 + (r : ℚ))
   | none => 0)

/-- Spec wording: sort the doc ids descending by `specScore`, breaking
score ties by dense rank first (dense-seen ids in dense order precede
sparse-only ids) and stable insertion order otherwise — i.e. a stable
descending sort of the dense-then-new-sparse id sequence. -/
def specFuse (denseIds sparseIds : List String) : List String :=
  let cands := denseIds ++ sparseIds.filter (fun i => !(denseIds.contains i))
  (sortDesc (cands.map (fun i => (i, specScore denseIds sparseIds i)))).map (·.1)

/-! ### Auxiliary notions used to relate `rrf_fuse` to `specFuse` -/

/-- `ranks.get(k, 0.0)`: the score stored for `k`, defaulting to 0. -/
def valAt (d : List (String × ℚ)) (k : String) : ℚ :=
  ((d.find? (fun p => p.1 == k)).map (·.2)).getD 0

/-- The total reciprocal-rank contribution a single enumeration pass
starting at rank `r` adds to the score of `k`. -/
def contribFrom : List String → String → ℕ → ℚ
  | [], _, _ => 0
  | id :: rest, k, r =>
    if id = k then 1 / (RRF_K + r) + contribFrom rest k (r + 1)
    else contribFrom rest k (r + 1)

/-- The key sequence produced by feeding `ids` into an insertion-ordered
dict that already holds the keys `ks`. -/
def addKeys (ks : List String) : List String → List String
  | [] => ks
  | id :: rest => addKeys (if id ∈ ks then ks else ks ++ [id]) rest

/-! ## Access reconciler and pipeline glue (`app.py`) -/

/-- Outcome of probing one check strategy of the authorization client on
one resource: an explicit allow verdict, an explicit deny verdict, or a
failure (raised exception / missing SDK capability). -/
inductive Strat
  | allow
  | deny
  | err
deriving DecidableEq

/-- The external Cerbos client, reduced to the outcome each of the two
probed strategies (`is_allowed`, then `check_resource`) produces per
resource id. -/
structure CerbosClient where
  s1 : String → Strat
  s2 : String → Strat

/-- The per-resource body of `_cerbos_allowed_ids`: the id is added to
the allow-set iff the first strategy yields an explicit allow, or else
the second does.  A deny or failure of the first strategy falls through
to the second; a deny or failure of the second adds nothing. -/
def probeAllow (c : CerbosClient) (rid : String) : Bool :=
  match c.s1 rid with
  | .allow => true
  | _ =>
    match c.s2 rid with
    | .allow => true
    | _ => false

/-- `_cerbos_allowed_ids` (`app.py`): collect the ids that probed as
allowed; if that set is empty, permissive mode (`strict=False`) returns
every input id and strict mode returns nothing.  The result is a Python
set; it is modelled as a list read up to membership. -/
def cerbos_allowed_ids (c : CerbosClient) (ids : List String) (strict : Bool) : List String :=
  let allowed := ids.filter (probeAllow c)
  if allowed.isEmpty then
    if strict then [] else ids
  else allowed

/-- The Cerbos post-filter of `answer_query`: intersect the retrieved
candidates with the allow-set, keeping retrieval order
(`allowed = [r for r in results if r.get("id", ...) in allowed_ids]`). -/
def answer_allowed (c : CerbosClient) (strict : Bool)
    (dense : List DenseHit) (sparse : List (String × ℚ)) : List Item :=
  let results := retrieve dense sparse 5
  let ids := cerbos_allowed_ids c (results.map (·.id)) strict
  results.filter (fun r => ids.contains r.id)

/-- Python string slicing `s[:n]`. -/
def strTake (s : String) (n : ℕ) : String :=
  ⟨s.data.take n⟩

/-- One line of the assembled context:
`f"[Document {i+1}] (Source: {d.get('source','?')})\n{d.get('text','')[:400]}"`. -/
def docLine (i : ℕ) (it : Item) : String :=
  "[Document " ++ toString (i + 1) ++ "] (Source: "
    ++ it.payload.source.getD "?" ++ ")\n"
    ++ strTake (it.payload.text.getD "") 400

/-- The `"\n\n".join(...)` context assembly of `answer_query`. -/
def assemble_context (allowed : List Item) : String :=
  String.intercalate "\n\n" (allowed.enum.map (fun p => docLine p.1 p.2))

/-- A concrete corpus for the confidential-leak scenario: one
confidential acme document and nothing else. -/
def corpusC2 : String → Payload := fun id =>
  if id = "conf1" then
    ⟨some "secret salary bands", some "conf1.md", some "acme", some "confidential"⟩
  else ⟨none, none, none, none⟩

/-- A two-document corpus: one public and one confidential acme document. -/
def corpusC2X : String → Payload := fun id =>
  if id = "pub1" then
    ⟨some "holiday policy", some "pub1.md", some "acme", some "public"⟩
  else if id = "conf1" then
    ⟨some "secret salary bands", some "conf1.md", some "acme", some "confidential"⟩
  else ⟨none, none, none, none⟩

/-!
# Theorems
-/

/-! ## Helper lemmas: retriever and reconciler -/

theorem mem_cerbos_allowed (c : CerbosClient) (ids : List String) (strict : Bool) :
    ∀ x ∈ cerbos_allowed_ids c ids strict, x ∈ ids := by
  intro x hx
  unfold cerbos_allowed_ids at hx
  by_cases h : (ids.filter (probeAllow c)).isEmpty
  · rw [if_pos h] at hx
    cases strict with
    | true => simp at hx
    | false => simpa using hx
  · rw [if_neg h] at hx
    exact List.mem_of_mem_filter hx

theorem retrieve_payload_origin (dense : List DenseHit) (sparse : List (String × ℚ))
    (top_k : ℕ) :
    ∀ it ∈ retrieve dense sparse top_k,
      (∃ hh ∈ dense, hh.1 = it.id ∧ it.payload = hh.2.2) ∨ it.payload = stubPayload it.id := by
  intro it hit
  unfold retrieve at hit
  have hit' := List.mem_of_mem_take hit
  rw [List.mem_map] at hit'
  obtain ⟨did, -, heq⟩ := hit'
  cases hfind : payloadLookup dense did with
  | none =>
    rw [hfind] at heq
    right
    rw [← heq]
  | some p =>
    rw [hfind] at heq
    left
    unfold payloadLookup at hfind
    cases hf : dense.reverse.find? (fun hh => hh.1 == did) with
    | none => rw [hf] at hfind; simp at hfind
    | some hh =>
      rw [hf] at hfind
      obtain rfl : hh.2.2 = p := by simpa using hfind
      have hmem : hh ∈ dense := List.mem_reverse.mp (List.mem_of_find?_eq_some hf)
      have hid : hh.1 = did := by
        have := List.find?_some hf
        simpa using this
      exact ⟨hh, hmem, by rw [← heq, hid], by rw [← heq]⟩

theorem answer_allowed_mem_retrieve (c : CerbosClient) (strict : Bool)
    (dense : List DenseHit) (sparse : List (String × ℚ)) :
    ∀ it ∈ answer_allowed c strict dense sparse, it ∈ retrieve dense sparse 5 := by
  intro it hit
  unfold answer_allowed at hit
  exact List.mem_of_mem_filter hit

/-! ## C1 — aggregate fallback of the access reconciler -/

/-- C1, counterexample: when every candidate receives an explicit deny
verdict from both strategies, permissive mode does **not** return the
empty set — it returns all input candidate ids.  The claim's first half
("empty regardless of mode" on all-deny) is therefore false. -/
theorem c1_all_deny_not_empty_counterexample :
    cerbos_allowed_ids ⟨fun _ => Strat.deny, fun _ => Strat.deny⟩ ["a", "b"] false
      = ["a", "b"]
    ∧ cerbos_allowed_ids ⟨fun _ => Strat.deny, fun _ => Strat.deny⟩ ["a", "b"] false
      ≠ [] := by
  constructor
  · rfl
  · decide

/-- C1 (amended): the reconciler does not distinguish an all-deny from a
total reconciliation failure.  Whenever no candidate probes as allowed —
whether every candidate received an explicit deny or no candidate
produced any explicit verdict — permissive mode returns the full input
candidate set and strict mode returns the empty set. -/
theorem c1_empty_allowset_fallback (c : CerbosClient) (ids : List String) (strict : Bool)
    (hnone : ∀ id ∈ ids, probeAllow c id = false) :
    cerbos_allowed_ids c ids strict = if strict then [] else ids := by
  unfold cerbos_allowed_ids
  have hfilter : ids.filter (probeAllow c) = [] := by
    rw [List.filter_eq_nil_iff]
    intro a ha
    simp [hnone a ha]
  rw [hfilter]
  rfl

/-- Witness for C1's amended theorem at a concrete no-verdict client. -/
theorem c1_empty_allowset_fallback_witness :
    (∀ id ∈ ["x", "y"], probeAllow ⟨fun _ => Strat.err, fun _ => Strat.err⟩ id = false)
    ∧ cerbos_allowed_ids ⟨fun _ => Strat.err, fun _ => Strat.err⟩ ["x", "y"] true
        = if true then [] else ["x", "y"] :=
  ⟨by decide,
   c1_empty_allowset_fallback ⟨fun _ => Strat.err, fun _ => Strat.err⟩ ["x", "y"] true
     (by decide)⟩

/-! ## C4 — retrieve: top-k bound and prefilter satisfaction -/

/-- C4, counterexample: with the employee prefilter supplied and an
empty dense result (vacuously filter-respecting), a candidate found only
by BM25 is returned carrying the unresolved stub payload, which does not
satisfy the supplied filter.  "all returned candidates satisfy f" is
false. -/
theorem c4_sparse_only_violates_filter_counterexample :
    ((retrieve [] [("x", 1)] 5).all
      (fun it => satisfiesFilter (build_prefilter "acme" "employee") it.payload)) = false := by
  decide

/-- C4 (amended): `retrieve` returns at most `top_k` candidates; every
returned candidate either satisfies the supplied filter (those resolved
from the dense, filter-restricted modality do) or is a sparse-only
candidate carrying the unresolved stub payload, which need not satisfy
the filter. -/
theorem c4_retrieve_topk_and_filter (dense : List DenseHit) (sparse : List (String × ℚ))
    (top_k : ℕ) (must : List FieldCondition)
    (hd : dense.all (fun hh => satisfiesFilter must hh.2.2) = true) :
    (retrieve dense sparse top_k).length ≤ top_k
    ∧ (retrieve dense sparse top_k).all
        (fun it => satisfiesFilter must it.payload
                   || decide (it.payload = stubPayload it.id)) = true := by
  constructor
  · unfold retrieve
    exact List.length_take_le _ _
  · rw [List.all_eq_true]
    intro it hit
    rcases retrieve_payload_origin dense sparse top_k it hit with ⟨hh, hmem, -, hpay⟩ | hstub
    · have := (List.all_eq_true.mp hd) hh hmem
      simp only [hpay, Bool.or_eq_true]
      exact Or.inl this
    · simp [hstub]

/-- Witness for C4's amended theorem at a concrete dense/sparse pair. -/
theorem c4_retrieve_topk_and_filter_witness :
    ([(("d1", (1 : ℚ), (⟨some "t", some "d1", some "acme", some "public"⟩ : Payload)))].all
      (fun hh => satisfiesFilter (build_prefilter "acme" "employee") hh.2.2) = true)
    ∧ ((retrieve [("d1", 1, ⟨some "t", some "d1", some "acme", some "public"⟩)]
          [("x", 1)] 2).length ≤ 2
      ∧ (retrieve [("d1", 1, ⟨some "t", some "d1", some "acme", some "public"⟩)]
          [("x", 1)] 2).all
          (fun it => satisfiesFilter (build_prefilter "acme" "employee") it.payload
                     || decide (it.payload = stubPayload it.id)) = true) :=
  ⟨by decide,
   c4_retrieve_topk_and_filter _ _ 2 (build_prefilter "acme" "employee") (by decide)⟩

/-! ## C5 — payload resolution for sparse-only candidates -/

/-- C5: the code keeps a sparse-only candidate with empty text, but it
performs no id lookup and no source-filter fallback at all (the scroll
call in the source discards its result), so a payload that an id lookup
would have found is still degraded to the empty-text stub.  Evaluating
the embedded `retrieve` at the failing input: the BM25-only candidate
comes back as the bare stub. -/
theorem c5_sparse_only_payload_never_resolved :
    retrieve [] [("docA", 1)] 5 = [Item.mk "docA" (stubPayload "docA")]
    ∧ (Item.mk "docA" (stubPayload "docA")).payload.text = some "" := by
  constructor
  · rfl
  · rfl

/-! ## C7 — allow-set narrows retrieval; intersection preserves order -/

/-- C7: the allow-set computed by `_cerbos_allowed_ids` only contains
ids returned by retrieval (it never widens the prefiltered candidate
set), and intersecting the retrieved candidates with the allow-set
yields a sublist of the retrieval output, i.e. retrieval order is
preserved among the survivors. -/
theorem c7_allowset_subset_and_order_preserved (c : CerbosClient) (strict : Bool)
    (dense : List DenseHit) (sparse : List (String × ℚ)) :
    ((cerbos_allowed_ids c ((retrieve dense sparse 5).map (·.id)) strict).all
      (fun x => ((retrieve dense sparse 5).map (·.id)).contains x) = true)
    ∧ (answer_allowed c strict dense sparse).Sublist (retrieve dense sparse 5) := by
  constructor
  · rw [List.all_eq_true]
    intro x hx
    have := mem_cerbos_allowed c ((retrieve dense sparse 5).map (·.id)) strict x hx
    simpa [List.contains] using this
  · unfold answer_allowed
    exact List.filter_sublist _

/-! ## C2 — confidential candidates and the employee context -/

/-- C2, counterexample: with role `employee`, an empty dense result
(vacuously respecting the employee prefilter) and a confidential
document found by BM25, the reconciler's permissive fallback lets the
candidate through and it appears in the assembled context — as a
`[Document 1] (Source: conf1)` entry with empty body.  A
confidential-labelled candidate therefore does contribute to the
context string, refuting the claim as stated. -/
theorem c2_confidential_in_context_counterexample :
    ((answer_allowed ⟨fun _ => Strat.err, fun _ => Strat.err⟩ false [] [("conf1", 1)]).any
      (fun it => (corpusC2 it.id).sensitivity == some "confidential") = true)
    ∧ assemble_context
        (answer_allowed ⟨fun _ => Strat.err, fun _ => Strat.err⟩ false [] [("conf1", 1)])
        = "[Document 1] (Source: conf1)\n" := by
  constructor
  · rfl
  · rfl

/-- C2 (amended): for role `employee`, no confidential-labelled
candidate ever contributes *text* to the assembled context: dense
results are restricted by the employee prefilter to public documents,
and a confidential candidate reachable only through the (unfiltered)
sparse modality is degraded to the empty-text stub, so the text it
contributes to the context is empty — although its id/source line does
appear. -/
theorem c2_confidential_text_never_in_context (corpus : String → Payload) (tenant : String)
    (c : CerbosClient) (strict : Bool) (dense : List DenseHit) (sparse : List (String × ℚ))
    (hd : dense.all (fun hh => decide (hh.2.2 = corpus hh.1)
          && satisfiesFilter (build_prefilter tenant "employee") hh.2.2) = true) :
    (answer_allowed c strict dense sparse).all
      (fun it => !((corpus it.id).sensitivity == some "confidential")
                 || ((it.payload.text.getD "") == "")) = true := by
  rw [List.all_eq_true]
  intro it hit
  have hret := answer_allowed_mem_retrieve c strict dense sparse it hit
  rcases retrieve_payload_origin dense sparse 5 it hret with ⟨hh, hmem, hid, hpay⟩ | hstub
  · have hall := (List.all_eq_true.mp hd) hh hmem
    rw [Bool.and_eq_true, decide_eq_true_eq] at hall
    obtain ⟨hcorp, hfilt⟩ := hall
    have hsens : hh.2.2.sensitivity = some "public" := by
      unfold satisfiesFilter build_prefilter at hfilt
      rw [if_pos rfl, List.all_eq_true] at hfilt
      have := hfilt ⟨"sensitivity", "public"⟩ (by simp)
      simpa [payloadField] using this
    have : (corpus it.id).sensitivity = some "public" := by
      rw [← hid, ← hcorp, hsens]
    simp [this]
  · have : it.payload.text = some "" := by rw [hstub]; rfl
    simp [this]

/-- Witness for C2's amended theorem at a concrete scenario (one public
dense hit, one confidential sparse-only hit). -/
theorem c2_confidential_text_never_in_context_witness :
    ([(("pub1", (1 : ℚ), corpusC2X "pub1"))].all
      (fun hh => decide (hh.2.2 = corpusC2X hh.1)
          && satisfiesFilter (build_prefilter "acme" "employee") hh.2.2) = true)
    ∧ (answer_allowed ⟨fun _ => Strat.err, fun _ => Strat.err⟩ false
        [("pub1", 1, corpusC2X "pub1")] [("conf1", 1)]).all
        (fun it => !((corpusC2X it.id).sensitivity == some "confidential")
                   || ((it.payload.text.getD "") == "")) = true :=
  ⟨by decide,
   c2_confidential_text_never_in_context corpusC2X "acme"
     ⟨fun _ => Strat.err, fun _ => Strat.err⟩ false
     [("pub1", 1, corpusC2X "pub1")] [("conf1", 1)] (by decide)⟩

/-! ## Helper lemmas: semantic cache -/

theorem dotV_self_nonneg (v : Vec) : 0 ≤ dotV v v := by
  induction v with
  | nil => simp [dotV]
  | cons x xs ih =>
    have hx : 0 ≤ x * x := mul_self_nonneg x
    calc (0 : ℝ) ≤ x * x + dotV xs xs := by linarith
    _ = dotV (x :: xs) (x :: xs) := by rw [dotV]

theorem normV_eq_zero_iff (v : Vec) : normV v = 0 ↔ dotV v v = 0 := by
  unfold normV
  rw [Real.sqrt_eq_zero']
  constructor
  · intro hle
    exact le_antisymm hle (dotV_self_nonneg v)
  · intro h
    rw [h]

theorem cosine_self_eq_one (v : Vec) (hv : dotV v v ≠ 0) :
    cosine_similarity v v = 1 := by
  unfold cosine_similarity
  have hnz : ¬(normV v = 0 ∨ normV v = 0) := by
    rw [or_self, normV_eq_zero_iff]
    exact hv
  rw [if_neg hnz]
  unfold normV
  rw [Real.mul_self_sqrt (dotV_self_nonneg v)]
  exact div_self hv

theorem redisFind_redisSet_same (s : Store) (k : String) (e : Entry) :
    redisFind (redisSet s k e) k = some e := by
  induction s with
  | nil => simp [redisSet, redisFind, List.find?]
  | cons p rest ih =>
    by_cases hp : p.1 = k
    · have hany : (p :: rest).any (fun q => q.1 == k) = true := by
        simp [List.any_cons, hp]
      rw [redisSet, if_pos hany]
      simp only [List.map_cons, if_pos (show (p.1 == k) = true by simp [hp])]
      simp [redisFind, List.find?]
    · have hpk : (p.1 == k) = false := by simp [hp]
      by_cases hrest : rest.any (fun q => q.1 == k) = true
      · have hany : (p :: rest).any (fun q => q.1 == k) = true := by
          rw [List.any_cons, hrest, Bool.or_true]
        rw [redisSet, if_pos hany]
        have htail : redisFind (rest.map (fun q => if q.1 == k then (k, e) else q)) k
            = some e := by
          have h2 := ih
          rw [redisSet, if_pos hrest] at h2
          exact h2
        simp only [List.map_cons, hpk, Bool.false_eq_true, if_false]
        simp only [redisFind, List.find?_cons, hpk] at htail ⊢
        exact htail
      · have hrestf : rest.any (fun q => q.1 == k) = false :=
          Bool.eq_false_iff.mpr hrest
        have hany : (p :: rest).any (fun q => q.1 == k) = false := by
          rw [List.any_cons, hpk, hrestf]
          rfl
        rw [redisSet, if_neg (by rw [hany]; exact Bool.false_ne_true)]
        have htail : redisFind (rest ++ [(k, e)]) k = some e := by
          have h2 := ih
          rw [redisSet, if_neg hrest] at h2
          exact h2
        rw [List.cons_append]
        simp only [redisFind, List.find?_cons, hpk] at htail ⊢
        exact htail

theorem cache_key_eq_of_norm_eq (h : String → Int) (q : String) {t₁ r₁ t₂ r₂ : String}
    (ht : pyNorm t₁ = pyNorm t₂) (hr : pyNorm r₁ = pyNorm r₂) :
    cache_key h q t₁ r₁ = cache_key h q t₂ r₂ := by
  unfold cache_key
  rw [ht, hr]

theorem cache_key_ne_of_norm_tenant_ne (h : String → Int) (q r : String) {A B : String}
    (hne : pyNorm A ≠ pyNorm B) : cache_key h q A r ≠ cache_key h q B r := by
  intro he
  apply hne
  unfold cache_key at he
  have hd := congrArg String.data he
  simp only [String.data_append] at hd
  have h1 := List.append_cancel_right hd
  have h2 := List.append_cancel_right h1
  have h3 := List.append_cancel_right h2
  have h4 := List.append_cancel_right h3
  exact String.ext (List.append_cancel_left h4)

/-- `get` immediately after `set` with the identical embedding and
key-equivalent tenant/role arguments is a hit with similarity exactly 1
(for a nonzero embedding and a threshold ≤ 1). -/
theorem cache_get_after_set (h : String → Int) (threshold : ℝ) (s : Store)
    (q : String) (v : Vec) (d : CacheData) {t₁ r₁ t₂ r₂ : String}
    (ht : pyNorm t₁ = pyNorm t₂) (hr : pyNorm r₁ = pyNorm r₂)
    (hv : dotV v v ≠ 0) (hth : threshold ≤ 1) :
    cache_get h threshold (cache_set h s q v d t₁ r₁) q v t₂ r₂
      = some ⟨d.answer, d.results, some d.sources, true, 1⟩ := by
  unfold cache_get cache_set
  rw [← cache_key_eq_of_norm_eq h q ht hr,
      redisFind_redisSet_same s (cache_key h q t₁ r₁) _]
  simp only
  rw [cosine_self_eq_one v hv, if_neg (not_lt.mpr hth)]

/-! ## C3 — cross-tenant cache isolation -/

/-- C3, counterexample: the tenants `"Acme"` and `"acme"` are distinct
strings, yet `set` under `"Acme"` followed by `get` under `"acme"` with
the identical text and embedding is a *hit*, because `_key` lowercases
and strips the tenant before hashing.  The claim quantified over all
pairs of distinct tenant strings is therefore false. -/
theorem c3_distinct_tenant_strings_can_hit_counterexample :
    ("Acme" : String) ≠ "acme"
    ∧ (cache_get (fun _ => 0) 0.95
        (cache_set (fun _ => 0) [] "q" [1] ⟨"ans", "res", "src"⟩ "Acme" "employee")
        "q" [1] "acme" "employee").isSome = true := by
  refine ⟨by decide, ?_⟩
  rw [cache_get_after_set (fun _ => 0) 0.95 [] "q" [1] ⟨"ans", "res", "src"⟩
        (by decide) rfl (by norm_num [dotV]) (by norm_num)]
  rfl

/-- C3 (amended): for tenants that are distinct *after* the
lowercase-and-strip normalisation applied by `_key` (and any role),
`set` under tenant A followed by `get` under tenant B with the identical
text and embedding misses: the two operations touch different keys. -/
theorem c3_cross_tenant_get_misses (h : String → Int) (threshold : ℝ)
    (q : String) (v : Vec) (d : CacheData) (A B r : String)
    (hne : pyNorm A ≠ pyNorm B) :
    cache_get h threshold (cache_set h [] q v d A r) q v B r = none := by
  unfold cache_get cache_set
  have hk := cache_key_ne_of_norm_tenant_ne h q r hne
  have hbeq : (cache_key h q A r == cache_key h q B r) = false :=
    beq_eq_false_iff_ne.mpr hk
  have hfind : redisFind (redisSet [] (cache_key h q A r)
      ⟨q, v, d.answer, d.results, d.sources⟩) (cache_key h q B r) = none := by
    simp [redisSet, redisFind, List.find?, hbeq]
  rw [hfind]

/-- Witness for C3's amended theorem at concrete distinct tenants. -/
theorem c3_cross_tenant_get_misses_witness :
    pyNorm "tenant-a" ≠ pyNorm "tenant-b"
    ∧ cache_get (fun _ => 0) 0.95
        (cache_set (fun _ => 0) [] "q" [1] ⟨"ans", "res", "src"⟩ "tenant-a" "emp")
        "q" [1] "tenant-b" "emp" = none :=
  ⟨by decide,
   c3_cross_tenant_get_misses (fun _ => 0) 0.95 "q" [1] ⟨"ans", "res", "src"⟩
     "tenant-a" "tenant-b" "emp" (by decide)⟩

/-! ## C8 — set-then-get round trip -/

/-- C8, counterexample: for the zero embedding the claim fails — `set`
then immediate `get` with the identical (zero-norm) embedding computes
similarity 0, which is below the 0.95 threshold, so the result is a miss
rather than a hit with similarity ≈ 1. -/
theorem c8_zero_embedding_misses_counterexample :
    cache_get (fun _ => 0) 0.95
      (cache_set (fun _ => 0) [] "q" [0] ⟨"ans", "res", "src"⟩ "acme" "employee")
      "q" [0] "acme" "employee" = none := by
  unfold cache_get cache_set
  rw [redisFind_redisSet_same]
  simp only
  have hz : cosine_similarity [0] [0] = 0 := by
    unfold cosine_similarity
    rw [if_pos]
    left
    rw [normV_eq_zero_iff]
    norm_num [dotV]
  rw [hz, if_pos (by norm_num)]

/-- C8 (amended): for every embedding of **nonzero norm**, `set` followed
immediately by `get` with the identical embedding for the same
(tenant, role, query) is a hit whose reported similarity is exactly 1. -/
theorem c8_set_then_get_hits_with_similarity_one (h : String → Int) (s : Store)
    (q : String) (v : Vec) (d : CacheData) (t r : String)
    (hv : dotV v v ≠ 0) :
    cache_get h 0.95 (cache_set h s q v d t r) q v t r
      = some ⟨d.answer, d.results, some d.sources, true, 1⟩ :=
  cache_get_after_set h 0.95 s q v d rfl rfl hv (by norm_num)

/-- Witness for C8's amended theorem at a concrete nonzero embedding. -/
theorem c8_set_then_get_hits_witness :
    dotV [1] [1] ≠ 0
    ∧ cache_get (fun _ => 0) 0.95
        (cache_set (fun _ => 0) [] "q" [1] ⟨"ans", "res", "src"⟩ "acme" "manager")
        "q" [1] "acme" "manager"
        = some ⟨"ans", "res", some "src", true, 1⟩ :=
  ⟨by norm_num [dotV],
   c8_set_then_get_hits_with_similarity_one (fun _ => 0) [] "q" [1]
     ⟨"ans", "res", "src"⟩ "acme" "manager" (by norm_num [dotV])⟩

/-! ## C9 — similarity gate on key match; zero-norm similarity -/

/-- C9: (i) a `get` whose key matches a stored entry still misses when
the cosine similarity between stored and incoming embedding is below the
threshold; (ii) if either embedding has zero norm, the computed
similarity is exactly 0. -/
theorem c9_similarity_gate_and_zero_norm :
    (∀ (h : String → Int) (threshold : ℝ) (s : Store) (q : String) (v : Vec)
       (t r : String) (e : Entry),
       redisFind s (cache_key h q t r) = some e →
       cosine_similarity v e.embedding < threshold →
       cache_get h threshold s q v t r = none)
    ∧ (∀ a b : Vec, normV a = 0 ∨ normV b = 0 → cosine_similarity a b = 0) := by
  constructor
  · intro h threshold s q v t r e hfind hsim
    unfold cache_get
    rw [hfind]
    simp only
    rw [if_pos hsim]
  · intro a b hz
    unfold cosine_similarity
    rw [if_pos hz]

/-- Witness for C9 at a concrete key-matching store whose stored
embedding is orthogonal to the incoming one, and at a zero vector. -/
theorem c9_similarity_gate_witness :
    cache_get (fun _ => 0) 0.95
      [(cache_key (fun _ => 0) "q" "t" "r", ⟨"q", [1, 0], "ans", "res", "src"⟩)]
      "q" [0, 1] "t" "r" = none
    ∧ cosine_similarity [0] [1] = 0 := by
  constructor
  · apply c9_similarity_gate_and_zero_norm.1 (fun _ => 0) 0.95 _ "q" [0, 1] "t" "r"
      ⟨"q", [1, 0], "ans", "res", "src"⟩
    · simp [redisFind, List.find?]
    · have h1 : normV [1, 0] = 1 := by
        unfold normV
        norm_num [dotV, Real.sqrt_one]
      have h2 : normV [0, 1] = 1 := by
        unfold normV
        norm_num [dotV, Real.sqrt_one]
      unfold cosine_similarity
      rw [if_neg (by rw [h1, h2]; norm_num), h1, h2]
      norm_num [dotV]
  · exact c9_similarity_gate_and_zero_norm.2 [0] [1]
      (Or.inl (by rw [normV_eq_zero_iff]; norm_num [dotV]))

/-! ## Helper lemmas: reciprocal rank fusion (C6) -/

theorem mem_insertDesc (x : String × ℚ) : ∀ (l : List (String × ℚ)) (a : String × ℚ),
    a ∈ insertDesc x l ↔ a = x ∨ a ∈ l := by
  intro l
  induction l with
  | nil => intro a; simp [insertDesc]
  | cons y ys ih =>
    intro a
    rw [insertDesc]
    by_cases hc : y.2 ≤ x.2
    · rw [if_pos hc]
      simp [List.mem_cons]
    · rw [if_neg hc, List.mem_cons, ih a, List.mem_cons]
      tauto

theorem insertDesc_pairwise_ge (x : String × ℚ) :
    ∀ l : List (String × ℚ), l.Pairwise (fun p q => q.2 ≤ p.2) →
    (insertDesc x l).Pairwise (fun p q => q.2 ≤ p.2) := by
  intro l
  induction l with
  | nil => intro _; simp [insertDesc]
  | cons y ys ih =>
    intro h
    rw [List.pairwise_cons] at h
    rw [insertDesc]
    by_cases hc : y.2 ≤ x.2
    · rw [if_pos hc, List.pairwise_cons]
      refine ⟨?_, List.pairwise_cons.mpr h⟩
      intro b hb
      rcases List.mem_cons.mp hb with rfl | hb
      · exact hc
      · exact le_trans (h.1 b hb) hc
    · rw [if_neg hc, List.pairwise_cons]
      refine ⟨?_, ih h.2⟩
      intro b hb
      rcases (mem_insertDesc x ys b).mp hb with rfl | hb
      · exact (not_le.mp hc).le
      · exact h.1 b hb

/-- `sortDesc` really sorts by non-increasing score. -/
theorem sortDesc_pairwise_ge (l : List (String × ℚ)) :
    (sortDesc l).Pairwise (fun p q => q.2 ≤ p.2) := by
  induction l with
  | nil => simp [sortDesc]
  | cons x xs ih => exact insertDesc_pairwise_ge x (sortDesc xs) ih

/-- `sortDesc` is stable: score ties keep their insertion order, as
Python's `sorted(..., reverse=True)` guarantees. -/
theorem sortDesc_tie_keeps_insertion_order :
    sortDesc [("a", 5), ("b", 5)] = [("a", 5), ("b", 5)] := by decide

/-- Tie-break check on the full fusion: with dense order `[a, b]` and
sparse order `[b, a]` both ids receive the identical score
`1/61 + 1/62`, and the fused order is the dict insertion order `[a, b]`
— dense rank first, exactly as `sorted(..., reverse=True)` (a stable
sort) computes it in the source. -/
theorem rrf_fuse_tie_dense_rank_first :
    rrf_fuse [("a", 1, Payload.mk none none none none),
              ("b", 1, Payload.mk none none none none)]
      [("b", 9), ("a", 8)] = ["a", "b"] := by
  have hdense : rrfPass [] ["a", "b"] 1
      = [("a", 1 / (RRF_K + 1)), ("b", 1 / (RRF_K + 2))] := by
    simp [rrfPass, dictAdd]
  have hsparse : rrfPass [("a", 1 / (RRF_K + 1)), ("b", 1 / (RRF_K + 2))] ["b", "a"] 1
      = [("a", 1 / (RRF_K + 1) + 1 / (RRF_K + 2)),
         ("b", 1 / (RRF_K + 2) + 1 / (RRF_K + 1))] := by
    simp [rrfPass, dictAdd]
  have hle : 1 / (RRF_K + 2) + 1 / (RRF_K + 1) ≤ 1 / (RRF_K + 1) + 1 / (RRF_K + 2) := by
    ring_nf
    exact le_refl _
  have hsort : sortDesc [("a", 1 / (RRF_K + 1) + 1 / (RRF_K + 2)),
      ("b", 1 / (RRF_K + 2) + 1 / (RRF_K + 1))]
      = [("a", 1 / (RRF_K + 1) + 1 / (RRF_K + 2)),
         ("b", 1 / (RRF_K + 2) + 1 / (RRF_K + 1))] := by
    simp only [sortDesc, List.foldr_cons, List.foldr_nil, insertDesc]
    rw [if_pos hle]
  simp only [rrf_fuse, List.map_cons, List.map_nil]
  rw [hdense, hsparse, hsort]
  rfl

theorem valAt_nil (k : String) : valAt [] k = 0 := rfl

theorem valAt_cons (p : String × ℚ) (d : List (String × ℚ)) (k : String) :
    valAt (p :: d) k = if p.1 = k then p.2 else valAt d k := by
  by_cases h : p.1 = k
  · simp [valAt, List.find?_cons, h]
  · simp [valAt, List.find?_cons, h]

theorem valAt_of_not_mem {d : List (String × ℚ)} {k : String}
    (h : k ∉ d.map (·.1)) : valAt d k = 0 := by
  induction d with
  | nil => rfl
  | cons p rest ih =>
    rw [List.map_cons, List.mem_cons] at h
    push_neg at h
    rw [valAt_cons, if_neg (fun he => h.1 he.symm)]
    exact ih h.2

theorem any_key_iff_mem (d : List (String × ℚ)) (key : String) :
    d.any (fun p => p.1 == key) = true ↔ key ∈ d.map (·.1) := by
  simp [List.any_eq_true, List.mem_map]

theorem valAt_mapUpd_ne (d : List (String × ℚ)) (key : String) (x : ℚ) {k : String}
    (hk : k ≠ key) :
    valAt (d.map (fun p => if p.1 == key then (p.1, p.2 + x) else p)) k = valAt d k := by
  induction d with
  | nil => rfl
  | cons p rest ih =>
    rw [List.map_cons, valAt_cons, valAt_cons]
    have hfst : (if p.1 == key then (p.1, p.2 + x) else p).1 = p.1 := by
      by_cases hb : (p.1 == key) = true
      · rw [if_pos hb]
      · rw [if_neg hb]
    rw [hfst]
    by_cases hp : p.1 = k
    · have hnb : (p.1 == key) = false := by
        rw [beq_eq_false_iff_ne]
        exact fun he => hk (hp ▸ he)
      rw [if_pos hp, if_pos hp, if_neg (by rw [hnb]; exact Bool.false_ne_true)]
    · rw [if_neg hp, if_neg hp, ih]

theorem valAt_mapUpd_self (d : List (String × ℚ)) (key : String) (x : ℚ)
    (hany : d.any (fun p => p.1 == key) = true) :
    valAt (d.map (fun p => if p.1 == key then (p.1, p.2 + x) else p)) key
      = valAt d key + x := by
  induction d with
  | nil => simp at hany
  | cons p rest ih =>
    rw [List.map_cons, valAt_cons]
    have hfst : (if p.1 == key then (p.1, p.2 + x) else p).1 = p.1 := by
      by_cases hb : (p.1 == key) = true
      · rw [if_pos hb]
      · rw [if_neg hb]
    rw [hfst, valAt_cons]
    by_cases hp : p.1 = key
    · have hb : (p.1 == key) = true := by simp [hp]
      rw [if_pos hp, if_pos hp, if_pos hb]
    · have hnb : (p.1 == key) = false := by simp [hp]
      rw [if_neg hp, if_neg hp]
      have hrest : rest.any (fun q => q.1 == key) = true := by
        rw [List.any_cons, hnb, Bool.false_or] at hany
        exact hany
      exact ih hrest

theorem valAt_append_single_ne (d : List (String × ℚ)) (key : String) (x : ℚ)
    {k : String} (hk : k ≠ key) :
    valAt (d ++ [(key, x)]) k = valAt d k := by
  induction d with
  | nil =>
    rw [List.nil_append, valAt_cons, valAt_nil, if_neg (fun he => hk he.symm)]
  | cons p rest ih =>
    rw [List.cons_append, valAt_cons, valAt_cons, ih]

theorem valAt_append_single_self (d : List (String × ℚ)) (key : String) (x : ℚ)
    (habs : key ∉ d.map (·.1)) :
    valAt (d ++ [(key, x)]) key = x := by
  induction d with
  | nil =>
    rw [List.nil_append, valAt_cons, if_pos rfl]
  | cons p rest ih =>
    rw [List.map_cons, List.mem_cons] at habs
    push_neg at habs
    rw [List.cons_append, valAt_cons, if_neg (fun he => habs.1 he.symm)]
    exact ih habs.2

theorem valAt_dictAdd (d : List (String × ℚ)) (key : String) (x : ℚ) (k : String) :
    valAt (dictAdd d key x) k = valAt d k + (if key = k then x else 0) := by
  unfold dictAdd
  by_cases hany : d.any (fun p => p.1 == key) = true
  · rw [if_pos hany]
    by_cases hk : key = k
    · subst hk
      rw [if_pos rfl, valAt_mapUpd_self d key x hany]
    · rw [if_neg hk, add_zero, valAt_mapUpd_ne d key x (fun he => hk he.symm)]
  · rw [if_neg hany]
    have habs : key ∉ d.map (·.1) := fun hm => hany ((any_key_iff_mem d key).mpr hm)
    by_cases hk : key = k
    · subst hk
      rw [if_pos rfl, valAt_of_not_mem habs, zero_add,
          valAt_append_single_self d key x habs]
    · rw [if_neg hk, add_zero, valAt_append_single_ne d key x (fun he => hk he.symm)]

theorem valAt_rrfPass (ids : List String) (d : List (String × ℚ)) (r : ℕ) (k : String) :
    valAt (rrfPass d ids r) k = valAt d k + contribFrom ids k r := by
  induction ids generalizing d r with
  | nil => simp [rrfPass, contribFrom]
  | cons id rest ih =>
    rw [rrfPass, ih, valAt_dictAdd]
    rw [contribFrom]
    by_cases hik : id = k
    · rw [if_pos hik, if_pos hik]; ring
    · rw [if_neg hik, if_neg hik]; ring

theorem keys_mapUpd (d : List (String × ℚ)) (key : String) (x : ℚ) :
    (d.map (fun p => if p.1 == key then (p.1, p.2 + x) else p)).map (·.1)
      = d.map (·.1) := by
  rw [List.map_map]
  apply List.map_congr_left
  intro p _
  simp only [Function.comp_apply]
  by_cases hb : (p.1 == key) = true
  · rw [if_pos hb]
  · rw [if_neg hb]

theorem keys_dictAdd (d : List (String × ℚ)) (key : String) (x : ℚ) :
    (dictAdd d key x).map (·.1)
      = if key ∈ d.map (·.1) then d.map (·.1) else d.map (·.1) ++ [key] := by
  unfold dictAdd
  by_cases hany : d.any (fun p => p.1 == key) = true
  · rw [if_pos hany, if_pos ((any_key_iff_mem d key).mp hany), keys_mapUpd]
  · have habs : key ∉ d.map (·.1) := fun hm => hany ((any_key_iff_mem d key).mpr hm)
    rw [if_neg hany, if_neg habs, List.map_append]
    rfl

theorem keys_rrfPass (ids : List String) (d : List (String × ℚ)) (r : ℕ) :
    (rrfPass d ids r).map (·.1) = addKeys (d.map (·.1)) ids := by
  induction ids generalizing d r with
  | nil => rfl
  | cons id rest ih =>
    rw [rrfPass, ih, addKeys, keys_dictAdd]

theorem addKeys_eq_append_filter (ids : List String) (hnd : ids.Nodup) :
    ∀ ks : List String, addKeys ks ids = ks ++ ids.filter (fun i => !(ks.contains i)) := by
  induction ids with
  | nil => intro ks; simp [addKeys]
  | cons id rest ih =>
    intro ks
    rw [List.nodup_cons] at hnd
    rw [addKeys]
    by_cases hmem : id ∈ ks
    · have hc : ks.contains id = true := by
        simp [List.contains, List.elem_eq_mem, hmem]
      rw [if_pos hmem, ih hnd.2 ks, List.filter_cons,
          if_neg (by rw [hc]; decide)]
    · have hc : ks.contains id = false := by
        simp [List.contains, List.elem_eq_mem, hmem]
      rw [if_neg hmem, ih hnd.2 (ks ++ [id]), List.filter_cons,
          if_pos (by rw [hc]; decide), List.append_assoc, List.singleton_append]
      congr 1
      congr 1
      apply List.filter_congr
      intro y hy
      have hyne : y ≠ id := fun he => hnd.1 (he ▸ hy)
      have : (ks ++ [id]).contains y = ks.contains y := by
        simp [List.contains, List.elem_eq_mem, List.mem_append,
              List.mem_singleton, hyne]
      rw [this]

theorem addKeys_nodup (ids : List String) : ∀ ks : List String, ks.Nodup →
    (addKeys ks ids).Nodup := by
  induction ids with
  | nil => intro ks h; exact h
  | cons id rest ih =>
    intro ks h
    rw [addKeys]
    by_cases hmem : id ∈ ks
    · rw [if_pos hmem]; exact ih ks h
    · rw [if_neg hmem]
      apply ih
      rw [List.nodup_append]
      refine ⟨h, List.nodup_singleton id, ?_⟩
      intro a ha hb
      rw [List.mem_singleton] at hb
      exact hmem (hb ▸ ha)

theorem contribFrom_of_not_mem {ids : List String} {k : String} (h : k ∉ ids) :
    ∀ r : ℕ, contribFrom ids k r = 0 := by
  induction ids with
  | nil => intro r; rfl
  | cons id rest ih =>
    intro r
    rw [List.mem_cons] at h
    push_neg at h
    rw [contribFrom, if_neg (fun he => h.1 he.symm)]
    exact ih h.2 (r + 1)

theorem contribFrom_eq_rankIn (ids : List String) (k : String) (hnd : ids.Nodup) :
    ∀ r : ℕ, contribFrom ids k r
      = match rankIn ids k with
        | some j => 1 / (RRF_K + ((r : ℚ) + (j : ℚ) - 1))
        | none => 0 := by
  induction ids with
  | nil => intro r; rfl
  | cons id rest ih =>
    intro r
    rw [List.nodup_cons] at hnd
    by_cases hik : id = k
    · subst hik
      rw [contribFrom, if_pos rfl, contribFrom_of_not_mem hnd.1 (r + 1), rankIn,
          if_pos rfl]
      push_cast
      ring_nf
    · rw [contribFrom, if_neg hik, ih hnd.2 (r + 1), rankIn, if_neg hik]
      cases hr : rankIn rest k with
      | none => rfl
      | some j =>
        simp only [Option.map_some']
        push_cast
        ring_nf

theorem contribFrom_one_eq_spec_part (ids : List String) (k : String) (hnd : ids.Nodup) :
    contribFrom ids k 1
      = match rankIn ids k with
        | some j => 1 / (60 + (j : ℚ))
        | none => 0 := by
  rw [contribFrom_eq_rankIn ids k hnd 1]
  cases rankIn ids k with
  | none => rfl
  | some j =>
    show 1 / (RRF_K + ((1 : ℚ) + (j : ℚ) - 1)) = 1 / (60 + (j : ℚ))
    unfold RRF_K
    ring_nf

theorem valAt_keyScore_map (l : List String) (f : String → ℚ) (k : String) :
    valAt (l.map (fun i => (i, f i))) k = if k ∈ l then f k else 0 := by
  induction l with
  | nil => simp [valAt_nil]
  | cons id rest ih =>
    rw [List.map_cons, valAt_cons]
    by_cases hik : id = k
    · subst hik
      simp
    · rw [ih]
      simp only [List.mem_cons]
      rw [if_neg hik]
      have : ¬k = id := fun he => hik he.symm
      by_cases hk : k ∈ rest
      · rw [if_pos hk, if_pos (Or.inr hk)]
      · rw [if_neg hk, if_neg (by rintro (h | h); exact this h; exact hk h)]

theorem assoc_ext (l1 : List (String × ℚ)) : ∀ l2 : List (String × ℚ),
    l1.map (·.1) = l2.map (·.1) → (l1.map (·.1)).Nodup →
    (∀ k, valAt l1 k = valAt l2 k) → l1 = l2 := by
  induction l1 with
  | nil =>
    intro l2 hk _ _
    rw [List.map_nil] at hk
    have h2 := hk.symm
    rw [List.map_eq_nil_iff] at h2
    rw [h2]
  | cons p t1 ih =>
    intro l2 hk hnd hv
    cases l2 with
    | nil => simp at hk
    | cons q t2 =>
      rw [List.map_cons, List.map_cons] at hk
      injection hk with hk1 hkt
      rw [List.map_cons, List.nodup_cons] at hnd
      have hpq : p = q := by
        have h1 := hv p.1
        rw [valAt_cons, valAt_cons, if_pos rfl, if_pos hk1.symm] at h1
        exact Prod.ext_iff.mpr ⟨hk1, h1⟩
      have htv : ∀ k, valAt t1 k = valAt t2 k := by
        intro k
        by_cases hkp : p.1 = k
        · have h1 : k ∉ t1.map (·.1) := hkp ▸ hnd.1
          have h2 : k ∉ t2.map (·.1) := by rw [← hkt]; exact h1
          rw [valAt_of_not_mem h1, valAt_of_not_mem h2]
        · have h1 := hv k
          rw [valAt_cons, valAt_cons, if_neg hkp, if_neg (hk1 ▸ hkp)] at h1
          exact h1
      rw [hpq, ih t2 hkt hnd.2 htv]

theorem keys_keyScore_map (l : List String) (f : String → ℚ) :
    (l.map (fun i => (i, f i))).map (·.1) = l := by
  induction l with
  | nil => rfl
  | cons a t ih => simp [ih]

/-! ## C6 — reciprocal rank fusion -/

/-- C6: for duplicate-free dense and sparse rankings, `_rrf_fuse`
computes exactly the spec's fusion: every doc id receives the score
Σ over the modalities containing it of `1/(60 + rank)` (1-based rank
within that modality's truncated list, 0 from an absent modality), and
the ids are ordered by a stable descending sort of the
dense-then-new-sparse insertion sequence — so score ties are broken by
dense rank first, then by stable insertion order. -/
theorem c6_rrf_fuse_matches_spec (dense : List DenseHit) (sparse : List (String × ℚ))
    (hd : (dense.map (·.1)).Nodup) (hs : (sparse.map (·.1)).Nodup) :
    rrf_fuse dense sparse = specFuse (dense.map (·.1)) (sparse.map (·.1)) := by
  have h0 : addKeys [] (dense.map (·.1)) = dense.map (·.1) := by
    rw [addKeys_eq_append_filter _ hd, List.nil_append]
    apply List.filter_eq_self.mpr
    intro a _
    rfl
  have hdict :
      rrfPass (rrfPass [] (dense.map (·.1)) 1) (sparse.map (·.1)) 1
        = ((dense.map (·.1)) ++ (sparse.map (·.1)).filter
            (fun i => !((dense.map (·.1)).contains i))).map
            (fun i => (i, specScore (dense.map (·.1)) (sparse.map (·.1)) i)) := by
    apply assoc_ext
    · rw [keys_rrfPass, keys_rrfPass, List.map_nil, h0,
          addKeys_eq_append_filter _ hs, keys_keyScore_map]
    · rw [keys_rrfPass, keys_rrfPass, List.map_nil, h0]
      exact addKeys_nodup _ _ hd
    · intro k
      rw [valAt_rrfPass, valAt_rrfPass, valAt_nil, zero_add, valAt_keyScore_map]
      by_cases hmem : k ∈ (dense.map (·.1)) ++ (sparse.map (·.1)).filter
          (fun i => !((dense.map (·.1)).contains i))
      · rw [if_pos hmem, contribFrom_one_eq_spec_part _ _ hd,
            contribFrom_one_eq_spec_part _ _ hs]
        rfl
      · rw [if_neg hmem]
        have hkD : k ∉ dense.map (·.1) :=
          fun h => hmem (List.mem_append.mpr (Or.inl h))
        have hkS : k ∉ sparse.map (·.1) := by
          intro hkS
          apply hmem
          apply List.mem_append.mpr
          right
          rw [List.mem_filter]
          refine ⟨hkS, ?_⟩
          simp [List.contains, List.elem_eq_mem, hkD]
        rw [contribFrom_of_not_mem hkD 1, contribFrom_of_not_mem hkS 1, add_zero]
  simp only [rrf_fuse, specFuse]
  rw [hdict]

/-- Witness for C6 at concrete overlapping rankings. -/
theorem c6_rrf_fuse_matches_spec_witness :
    (([("a", (1 : ℚ), (⟨none, none, none, none⟩ : Payload)),
       ("b", 1 / 2, ⟨none, none, none, none⟩)].map (·.1)).Nodup
      ∧ (([("b", (3 : ℚ)), ("c", 2)].map (·.1)).Nodup))
    ∧ rrf_fuse
        [("a", 1, ⟨none, none, none, none⟩), ("b", 1 / 2, ⟨none, none, none, none⟩)]
        [("b", 3), ("c", 2)]
      = specFuse
          ([("a", (1 : ℚ), (⟨none, none, none, none⟩ : Payload)),
            ("b", 1 / 2, ⟨none, none, none, none⟩)].map (·.1))
          ([("b", (3 : ℚ)), ("c", 2)].map (·.1)) :=
  ⟨⟨by decide, by decide⟩,
   c6_rrf_fuse_matches_spec _ _ (by decide) (by decide)⟩

/-! ## Helper lemmas: glob matching and key normalisation (C10) -/

theorem toLower_eq_of_lt {c z : Char} (hz : z.toNat < 97) (h : Char.toLower c = z) :
    c = z := by
  unfold Char.toLower at h
  simp only at h
  by_cases hc : c.toNat ≥ 65 ∧ c.toNat ≤ 90
  · rw [if_pos hc] at h
    exfalso
    have hv : (c.toNat + 32).isValidChar := Or.inl (by omega)
    have ht : (Char.ofNat (c.toNat + 32)).toNat = c.toNat + 32 := by
      rw [Char.ofNat, dif_pos hv]
      rfl
    rw [h] at ht
    omega
  · rw [if_neg hc] at h
    exact h

theorem mem_pyNorm_data {s : String} {c : Char} (h : c ∈ (pyNorm s).data) :
    ∃ c' ∈ s.data, c = Char.toLower c' := by
  unfold pyNorm pyStrip pyLower at h
  have h1 := List.mem_reverse.mp h
  have h2 := List.dropWhile_subset _ h1
  have h3 := List.mem_reverse.mp h2
  have h4 := List.dropWhile_subset _ h3
  obtain ⟨c', hc', he⟩ := List.mem_map.mp h4
  exact ⟨c', hc', he.symm⟩

theorem pyNorm_no_colon {s : String} (h : ':' ∉ s.data) : ':' ∉ (pyNorm s).data := by
  intro hc
  obtain ⟨c', hc', he⟩ := mem_pyNorm_data hc
  exact h ((toLower_eq_of_lt (by decide) he.symm) ▸ hc')

theorem pyNorm_no_star {s : String} (h : '*' ∉ s.data) : '*' ∉ (pyNorm s).data := by
  intro hc
  obtain ⟨c', hc', he⟩ := mem_pyNorm_data hc
  exact h ((toLower_eq_of_lt (by decide) he.symm) ▸ hc')

theorem globMatch_star_any : ∀ k : List Char, globMatch ['*'] k = true := by
  intro k
  induction k with
  | nil => simp [globMatch]
  | cons c ks ih => simp [globMatch, ih]

theorem globMatch_trailing_star : ∀ l : List Char, '*' ∉ l →
    ∀ k : List Char, globMatch (l ++ ['*']) k = listStarts l k := by
  intro l
  induction l with
  | nil =>
    intro _ k
    rw [List.nil_append, globMatch_star_any]
    rfl
  | cons a l' ih =>
    intro hl k
    have ha : a ≠ '*' := fun he => hl (he ▸ List.mem_cons_self a l')
    have hl' : '*' ∉ l' := fun hm => hl (List.mem_cons_of_mem a hm)
    cases k with
    | nil =>
      rw [List.cons_append, globMatch, if_neg ha]
      rfl
    | cons b ks =>
      rw [List.cons_append, globMatch, if_neg ha]
      show (a == b && globMatch (l' ++ ['*']) ks) = listStarts (a :: l') (b :: ks)
      rw [ih hl' ks]
      rfl

theorem listStarts_append_same (a : List Char) : ∀ x y : List Char,
    listStarts (a ++ x) (a ++ y) = listStarts x y := by
  induction a with
  | nil => intro x y; rfl
  | cons c t ih => intro x y; simp [listStarts, ih]

theorem colon_split : ∀ a b x y : List Char, ':' ∉ a → ':' ∉ b →
    listStarts (a ++ ':' :: x) (b ++ ':' :: y) = true → a = b ∧ listStarts x y = true := by
  intro a
  induction a with
  | nil =>
    intro b x y _ hb hst
    cases b with
    | nil =>
      refine ⟨rfl, ?_⟩
      rw [List.nil_append, List.nil_append, listStarts, Bool.and_eq_true] at hst
      exact hst.2
    | cons d b' =>
      rw [List.nil_append, List.cons_append, listStarts, Bool.and_eq_true,
          beq_iff_eq] at hst
      exact absurd (by rw [hst.1]; exact List.mem_cons_self d b') hb
  | cons c a' ih =>
    intro b x y ha hb hst
    have hca : ':' ∉ a' := fun hm => ha (List.mem_cons_of_mem c hm)
    cases b with
    | nil =>
      rw [List.cons_append, List.nil_append, listStarts, Bool.and_eq_true,
          beq_iff_eq] at hst
      exact absurd (by rw [← hst.1]; exact List.mem_cons_self c a') ha
    | cons d b' =>
      rw [List.cons_append, List.cons_append, listStarts, Bool.and_eq_true,
          beq_iff_eq] at hst
      have hcb : ':' ∉ b' := fun hm => hb (List.mem_cons_of_mem d hm)
      obtain ⟨hab, hxy⟩ := ih b' x y hca hcb hst.2
      exact ⟨by rw [hst.1, hab], hxy⟩

/-- The pattern `clear` builds from raw (non-normalised, separator-free)
tenant/role arguments never glob-matches the normalised key written by
`set`, whenever normalisation actually changes the tenant or the role. -/
theorem pattern_not_match_key (h : String → Int) (q t r : String)
    (hts : '*' ∉ t.data) (htc : ':' ∉ t.data)
    (hrs : '*' ∉ r.data) (hrc : ':' ∉ r.data)
    (hnorm : pyNorm t ≠ t ∨ pyNorm r ≠ r) :
    globMatch ("cache:query:" ++ t ++ ":" ++ r ++ ":*").data
      (cache_key h q t r).data = false := by
  rw [Bool.eq_false_iff]
  intro hcon
  have hpat : ("cache:query:" ++ t ++ ":" ++ r ++ ":*").data
      = ("cache:query:".data ++ (t.data ++ ':' :: (r.data ++ [':']))) ++ ['*'] := by
    simp [String.data_append, List.append_assoc]
  have hkeyd : (cache_key h q t r).data
      = "cache:query:".data ++ ((pyNorm t).data ++ ':' :: ((pyNorm r).data ++ ':'
          :: (toString ((h q).natAbs % 10 ^ 12)).data)) := by
    unfold cache_key
    simp [String.data_append, List.append_assoc]
  rw [hpat, hkeyd] at hcon
  have hnostar : '*' ∉ "cache:query:".data ++ (t.data ++ ':' :: (r.data ++ [':'])) := by
    intro hm
    rcases List.mem_append.mp hm with hm | hm
    · revert hm; decide
    · rcases List.mem_append.mp hm with hm | hm
      · exact hts hm
      · rcases List.mem_cons.mp hm with hm | hm
        · exact absurd hm (by decide)
        · rcases List.mem_append.mp hm with hm | hm
          · exact hrs hm
          · exact absurd hm (by decide)
  rw [globMatch_trailing_star _ hnostar, listStarts_append_same] at hcon
  obtain ⟨ht1, hst1⟩ := colon_split t.data (pyNorm t).data _ _ htc
    (pyNorm_no_colon htc) hcon
  have hst2 : listStarts (r.data ++ ':' :: []) ((pyNorm r).data ++ ':'
      :: (toString ((h q).natAbs % 10 ^ 12)).data) = true := hst1
  obtain ⟨hr1, -⟩ := colon_split r.data (pyNorm r).data _ _ hrc
    (pyNorm_no_colon hrc) hst2
  rcases hnorm with hn | hn
  · exact hn (String.ext ht1.symm)
  · exact hn (String.ext hr1.symm)

/-! ## C10 — `clear` with raw (non-normalised) tenant/role arguments -/

/-- C10: `set` normalises tenant and role when building the key, but
`clear` interpolates its arguments verbatim into the glob pattern.  For
separator-free tenant/role arguments of which at least one is not
already lowercased-and-trimmed, `clear(tenant, role)` deletes zero
entries and leaves the store unchanged, even though `get` for the same
arguments succeeds against the entry `set` wrote. -/
theorem c10_clear_raw_args_deletes_nothing (h : String → Int) (q : String) (v : Vec)
    (d : CacheData) (t r : String)
    (hts : '*' ∉ t.data) (htc : ':' ∉ t.data)
    (hrs : '*' ∉ r.data) (hrc : ':' ∉ r.data)
    (htne : t ≠ "") (hrne : r ≠ "")
    (hnorm : pyNorm t ≠ t ∨ pyNorm r ≠ r)
    (hv : dotV v v ≠ 0) :
    (cache_clear (cache_set h [] q v d t r) (some t) (some r)).1 = 0
    ∧ (cache_clear (cache_set h [] q v d t r) (some t) (some r)).2
        = cache_set h [] q v d t r
    ∧ (cache_get h 0.95 (cache_set h [] q v d t r) q v t r).isSome = true := by
  have hkey := pattern_not_match_key h q t r hts htc hrs hrc hnorm
  have hte : t.isEmpty = false :=
    Bool.eq_false_iff.mpr (fun hc => htne ((String.isEmpty_iff t).mp hc))
  have hre : r.isEmpty = false :=
    Bool.eq_false_iff.mpr (fun hc => hrne ((String.isEmpty_iff r).mp hc))
  have htruthy : (optTruthy (some t) && optTruthy (some r)) = true := by
    simp [optTruthy, hte, hre]
  have hstore : cache_set h [] q v d t r
      = [(cache_key h q t r, ⟨q, v, d.answer, d.results, d.sources⟩)] := rfl
  have hclear : cache_clear (cache_set h [] q v d t r) (some t) (some r)
      = (0, cache_set h [] q v d t r) := by
    rw [hstore]
    simp only [cache_clear, Option.getD_some]
    rw [if_pos htruthy]
    simp only [redisKeys, List.map_cons, List.map_nil, List.filter_cons,
               List.filter_nil, hkey, Bool.false_eq_true, if_false,
               Bool.not_false, if_true, List.length_nil]
  refine ⟨by rw [hclear], by rw [hclear], ?_⟩
  rw [cache_get_after_set h 0.95 [] q v d rfl rfl hv (by norm_num)]
  rfl

/-- Witness for C10 at the concrete raw tenant `"Acme"`. -/
theorem c10_clear_raw_args_witness :
    (('*' ∉ ("Acme" : String).data) ∧ (':' ∉ ("Acme" : String).data)
      ∧ ('*' ∉ ("employee" : String).data) ∧ (':' ∉ ("employee" : String).data)
      ∧ ("Acme" : String) ≠ "" ∧ ("employee" : String) ≠ ""
      ∧ (pyNorm "Acme" ≠ "Acme" ∨ pyNorm "employee" ≠ "employee")
      ∧ dotV [1] [1] ≠ 0)
    ∧ ((cache_clear (cache_set (fun _ => 0) [] "q" [1] ⟨"a", "r", "s"⟩ "Acme" "employee")
          (some "Acme") (some "employee")).1 = 0
      ∧ (cache_clear (cache_set (fun _ => 0) [] "q" [1] ⟨"a", "r", "s"⟩ "Acme" "employee")
          (some "Acme") (some "employee")).2
          = cache_set (fun _ => 0) [] "q" [1] ⟨"a", "r", "s"⟩ "Acme" "employee"
      ∧ (cache_get (fun _ => 0) 0.95
          (cache_set (fun _ => 0) [] "q" [1] ⟨"a", "r", "s"⟩ "Acme" "employee")
          "q" [1] "Acme" "employee").isSome = true) :=
  ⟨⟨by decide, by decide, by decide, by decide, by decide, by decide,
    Or.inl (by decide), by norm_num [dotV]⟩,
   c10_clear_raw_args_deletes_nothing (fun _ => 0) "q" [1] ⟨"a", "r", "s"⟩
     "Acme" "employee" (by decide) (by decide) (by decide) (by decide)
     (by decide) (by decide) (Or.inl (by decide)) (by norm_num [dotV])⟩

end RagCore
